import Mathlib

/-!
Verification of `vmruntime/cloud_logging.py` (CloudLoggingHandler).

The module formats log records as JSON lines for Cloud Logging and writes
them through a size/count-bounded rotating file handler.  We embed:

* the timestamp computation (`math.modf` / `int()` on `record.created`),
  with the float modelled as an exact rational;
* the trace-id resolution (`record.trace_id` attribute, else the
  `HTTP_X_CLOUD_TRACE_CONTEXT` header split on the first `/`);
* the payload dict construction and `json.dumps` with its default options
  (`ensure_ascii` escaping, `", "` / `": "` separators, TypeError on a
  value that is not JSON serializable);
* the rotation discipline of the underlying rotating file handler
  (modelled from the spec, since `logging.handlers.RotatingFileHandler`
  is standard-library code outside this repository);
* the per-process log file path template.
-/

/-- Python `int()` applied to a float (modelled as an exact rational):
truncation toward zero. -/
def pyInt (q : ℚ) : ℤ := q.num.tdiv q.den

/-- Python `math.modf`: the pair (fractional part, integral part), both
carrying the sign of the input. -/
def modf (q : ℚ) : ℚ × ℚ := (q - (pyInt q : ℚ), (pyInt q : ℚ))

/-- Value of the `'seconds'` payload field: `int(second)` where
`subsecond, second = math.modf(record.created)` (line 63-69). -/
def payloadSeconds (created : ℚ) : ℤ := pyInt (modf created).2

/-- Value of the `'nanos'` payload field: `int(subsecond * 1e9)` (line 70). -/
def payloadNanos (created : ℚ) : ℤ := pyInt ((modf created).1 * (1000000000 : ℚ))

/-- A Python value that can sit in a record's `trace_id` attribute (set via
the `extra` dict of a logging call): a string, or an arbitrary non-string
object (opaque, identified by a tag, not JSON serializable). -/
inductive PyObj where
  | str : String → PyObj
  | obj : Nat → PyObj
deriving DecidableEq

/-- Python truthiness of a `trace_id` value, as tested by
`if not trace_id:` and `if trace_id:` (lines 81 and 89). -/
def truthyObj : PyObj → Bool
  | .str s => !s.isEmpty
  | .obj _ => true

/-- Truthiness of `getattr(record, 'trace_id', None)`: `None` is falsy. -/
def truthy : Option PyObj → Bool
  | none => false
  | some o => truthyObj o

/-- Python `str.split(sep)` for a one-character separator, over the
character list of the string.  Always returns a non-empty list. -/
def pySplit (sep : Char) : List Char → List (List Char)
  | [] => [[]]
  | c :: rest =>
    if c = sep then [] :: pySplit sep rest
    else (c :: (pySplit sep rest).headD []) :: (pySplit sep rest).tail

/-- Line 86: `os.getenv('HTTP_X_CLOUD_TRACE_CONTEXT', '').split('/')[0]`;
the ambient header value is passed in as `header`. -/
def headerTraceId (header : String) : String := ⟨(pySplit '/' header.data).headD []⟩

/-- Lines 77-90: resolve the trace id.  The record's `trace_id` attribute
wins if truthy; otherwise the portion of the header before the first `/`;
the result is attached to the payload only if truthy. -/
def resolveTrace (tid : Option PyObj) (header : String) : Option PyObj :=
  let t : Option PyObj := if truthy tid then tid else some (.str (headerTraceId header))
  if truthy t then t else none

/-- A scalar JSON-level Python value in the payload: string, int, `None`,
or a non-serializable object. -/
inductive JScalar where
  | s : String → JScalar
  | i : Int → JScalar
  | null : JScalar
  | obj : Nat → JScalar
deriving DecidableEq

/-- A payload dict value: a scalar or a (flat) nested dict, which is the
exact shape `CloudLoggingHandler.format` builds. -/
inductive PyVal where
  | scalar : JScalar → PyVal
  | dict : List (String × JScalar) → PyVal
deriving DecidableEq

/-- The fields of a `logging.LogRecord` consumed by `format`: `msg` is the
string returned by `super().format(record)`, `created` the float creation
time (modelled exactly), `thread` the thread id (an int or `None`),
`levelname` the severity name, `trace_id` the optional attribute attached
via `extra`. -/
structure LogRecord where
  msg : String
  created : ℚ
  thread : Option Int
  levelname : String
  trace_id : Option PyObj

/-- Value of the `'thread'` payload field (`record.thread`). -/
def threadScalar : Option Int → JScalar
  | none => .null
  | some n => .i n

/-- Injection of a `trace_id` attribute value into the payload. -/
def scalarOfPyObj : PyObj → JScalar
  | .str s => .s s
  | .obj n => .obj n

/-- Lines 67-90: the payload dict in insertion order — `message`,
`timestamp` (a dict with `seconds` and `nanos`), `thread`, `severity`,
and `traceId` appended only when a truthy trace id was resolved. -/
def buildPayload (r : LogRecord) (header : String) : List (String × PyVal) :=
  let base : List (String × PyVal) :=
    [("message", .scalar (.s r.msg)),
     ("timestamp", .dict [("seconds", .i (payloadSeconds r.created)),
                          ("nanos", .i (payloadNanos r.created))]),
     ("thread", .scalar (threadScalar r.thread)),
     ("severity", .scalar (.s r.levelname))]
  match resolveTrace r.trace_id header with
  | none => base
  | some t => base ++ [("traceId", .scalar (scalarOfPyObj t))]

/-- Lookup of a key in a Python dict modelled as an association list. -/
def getKey (k : String) : List (String × PyVal) → Option PyVal
  | [] => none
  | (k2, v) :: t => if k2 == k then some v else getKey k t

/-- Opening brace character (written via its code point). -/
def lbrace : Char := Char.ofNat 123

/-- Closing brace character (written via its code point). -/
def rbrace : Char := Char.ofNat 125

/-- Lower-case hexadecimal digit, as the json module's `\uXXXX` escapes use. -/
def hexDig (n : Nat) : Char := Char.ofNat (if n < 10 then 48 + n else 87 + n)

/-- A `\uXXXX` escape for a 16-bit code unit. -/
def uEsc (n : Nat) : List Char :=
  ['\\', 'u', hexDig (n / 4096 % 16), hexDig (n / 256 % 16), hexDig (n / 16 % 16), hexDig (n % 16)]

/-- The json module's `ensure_ascii` escaping of one character: the
two-character shortcuts of ESCAPE_DCT, printable ASCII kept as is, a
`\uXXXX` escape otherwise, with a surrogate pair beyond the BMP. -/
def encChar (c : Char) : List Char :=
  if c = '"' then ['\\', '"']
  else if c = '\\' then ['\\', '\\']
  else if c = '\x08' then ['\\', 'b']
  else if c = '\x0c' then ['\\', 'f']
  else if c = '\n' then ['\\', 'n']
  else if c = '\r' then ['\\', 'r']
  else if c = '\t' then ['\\', 't']
  else if 0x20 ≤ c.toNat ∧ c.toNat ≤ 0x7e then [c]
  else if c.toNat < 0x10000 then uEsc c.toNat
  else uEsc (0xD800 + (c.toNat - 0x10000) / 0x400) ++ uEsc (0xDC00 + (c.toNat - 0x10000) % 0x400)

/-- Escape a whole string (as a character list). -/
def encStrL : List Char → List Char
  | [] => []
  | c :: t => encChar c ++ encStrL t

/-- Decimal digit character. -/
def decDigit (n : Nat) : Char := Char.ofNat (48 + n)

/-- Fuel-driven decimal conversion (most significant digit first). -/
def natDecAux : Nat → Nat → List Char
  | 0, _ => []
  | fuel + 1, n => if n < 10 then [decDigit n] else natDecAux fuel (n / 10) ++ [decDigit (n % 10)]

/-- Decimal digits of a natural number, as Python `str()` produces. -/
def natDec (n : Nat) : List Char := natDecAux (n + 1) n

/-- Decimal representation of an integer, as the json module emits ints. -/
def intRepr (n : Int) : List Char := if n < 0 then '-' :: natDec n.natAbs else natDec n.natAbs

/-- Serialize one scalar; `none` models the TypeError the json module
raises on a value that is not JSON serializable. -/
def dumpScalar : JScalar → Option (List Char)
  | .s v => some ('"' :: (encStrL v.data ++ ['"']))
  | .i v => some (intRepr v)
  | .null => some ['n', 'u', 'l', 'l']
  | .obj _ => none

/-- Serialize an object key followed by the `': '` key separator. -/
def dumpKey (k : String) : List Char := '"' :: (encStrL k.data ++ ['"', ':', ' '])

/-- Serialize the members of an object with the `', '` item separator,
generic in the value serializer. -/
def dumpMembersG {α : Type} (dv : α → Option (List Char)) : List (String × α) → Option (List Char)
  | [] => some []
  | [(k, v)] => (dv v).map (fun d => dumpKey k ++ d)
  | (k, v) :: kvs =>
    (dv v).bind (fun d => (dumpMembersG dv kvs).map (fun m => dumpKey k ++ d ++ ',' :: ' ' :: m))

/-- Serialize a payload dict value (scalar or flat dict). -/
def dumpPyVal : PyVal → Option (List Char)
  | .scalar v => dumpScalar v
  | .dict kvs => (dumpMembersG dumpScalar kvs).map (fun m => lbrace :: (m ++ [rbrace]))

/-- Line 92: `json.dumps(payload)` with default options; `none` models the
TypeError raised when some value is not JSON serializable. -/
def json_dumps (payload : List (String × PyVal)) : Option (List Char) :=
  (dumpMembersG dumpPyVal payload).map (fun m => lbrace :: (m ++ [rbrace]))

/-- Lines 56-92: `CloudLoggingHandler.format`.  `r.msg` stands for the
string `super().format(record)` returned by the user-level formatting
step; `header` is the ambient `HTTP_X_CLOUD_TRACE_CONTEXT` value
(`''` when absent).  `Except.error ()` models an uncaught TypeError. -/
def CloudLoggingHandler.format (r : LogRecord) (header : String) : Except Unit String :=
  match json_dumps (buildPayload r header) with
  | some cs => .ok ⟨cs⟩
  | none => .error ()

/-- A decoded JSON value (number values restricted to integers, which is
all the payload contains). -/
inductive JVal where
  | s : String → JVal
  | i : Int → JVal
  | null : JVal
  | obj : List (String × JVal) → JVal

/-- Hexadecimal digit value. -/
def hexVal (c : Char) : Option Nat :=
  if 48 ≤ c.toNat ∧ c.toNat ≤ 57 then some (c.toNat - 48)
  else if 97 ≤ c.toNat ∧ c.toNat ≤ 102 then some (c.toNat - 87)
  else if 65 ≤ c.toNat ∧ c.toNat ≤ 70 then some (c.toNat - 55)
  else none

/-- Value of four hexadecimal digits. -/
def hex4 (a b c d : Char) : Option Nat :=
  (hexVal a).bind fun va => (hexVal b).bind fun vb =>
    (hexVal c).bind fun vc => (hexVal d).map fun vd =>
      ((va * 16 + vb) * 16 + vc) * 16 + vd

/-- Decode a two-character JSON escape. -/
def unescChar (e : Char) : Option Char :=
  if e = '"' then some '"'
  else if e = '\\' then some '\\'
  else if e = '/' then some '/'
  else if e = 'b' then some '\x08'
  else if e = 'f' then some '\x0c'
  else if e = 'n' then some '\n'
  else if e = 'r' then some '\r'
  else if e = 't' then some '\t'
  else none

/-- Decode the `\uXXXX` low-surrogate escape expected right after a high
surrogate of value `n` (the continuation `k` decodes the remaining string
body); the pair combines into one astral character. -/
def decodeLowSurrogate (k : List Char → Option (List Char × List Char)) (n : Nat) :
    List Char → Option (List Char × List Char)
  | '\\' :: 'u' :: a2 :: b2 :: c3 :: d2 :: rest4 =>
    (hex4 a2 b2 c3 d2).bind (fun m =>
      if 0xdc00 ≤ m ∧ m < 0xe000 then
        (k rest4).map
          (fun p => (Char.ofNat (0x10000 + (n - 0xd800) * 0x400 + (m - 0xdc00)) :: p.1, p.2))
      else none)
  | _ => none

/-- Decode what follows a `\uXXXX` escape of value `n`: a valid scalar
value stands for itself; a high surrogate must be followed by a low
surrogate; a lone low surrogate is rejected. -/
def decodeUHex (k : List Char → Option (List Char × List Char)) (n : Nat)
    (rest : List Char) : Option (List Char × List Char) :=
  if n < 0xd800 ∨ 0xe000 ≤ n then (k rest).map (fun p => (Char.ofNat n :: p.1, p.2))
  else if n < 0xdc00 then decodeLowSurrogate k n rest
  else none

/-- Decode what follows a backslash inside a JSON string (the continuation
`k` decodes the remaining string body). -/
def decodeEsc (k : List Char → Option (List Char × List Char)) :
    List Char → Option (List Char × List Char)
  | 'u' :: a :: b :: c :: d :: rest => (hex4 a b c d).bind (fun n => decodeUHex k n rest)
  | e :: rest => (unescChar e).bind (fun ch => (k rest).map (fun p => (ch :: p.1, p.2)))
  | [] => none

/-- Decode a JSON string body up to the closing quote, handling escapes and
surrogate pairs; rejects raw control characters.  Fuel decreases once per
decoded character; `input length + 1` is always enough. -/
def decodeStrBody : Nat → List Char → Option (List Char × List Char)
  | 0, _ => none
  | fuel + 1, cs =>
    match cs with
    | [] => none
    | c :: rest =>
      if c = '"' then some ([], rest)
      else if c = '\\' then decodeEsc (fun cs2 => decodeStrBody fuel cs2) rest
      else if c.toNat < 0x20 then none
      else (decodeStrBody fuel rest).map (fun p => (c :: p.1, p.2))

/-- Numeric value of a list of decimal digit characters. -/
def digitsVal (cs : List Char) : Nat := cs.foldl (fun a c => a * 10 + (c.toNat - 48)) 0

/-- Decode the tail of the literal `null`. -/
def decodeNull : List Char → Option (JVal × List Char)
  | 'u' :: 'l' :: 'l' :: r => some (.null, r)
  | _ => none

/-- Decode the digits of a negative number after the minus sign. -/
def decodeNegNum : List Char → Option (JVal × List Char)
  | dd :: r =>
    if dd.isDigit then
      some (.i (-(Int.ofNat (digitsVal (dd :: r.takeWhile Char.isDigit)))),
            r.dropWhile Char.isDigit)
    else none
  | [] => none

/-- Decode a scalar JSON value (string, integer, or `null`). -/
def decodeScalar : List Char → Option (JVal × List Char)
  | [] => none
  | c :: rest =>
    if c = '"' then (decodeStrBody (rest.length + 1) rest).map (fun p => (.s ⟨p.1⟩, p.2))
    else if c = 'n' then decodeNull rest
    else if c = '-' then decodeNegNum rest
    else if c.isDigit then
      some (.i (Int.ofNat (digitsVal (c :: rest.takeWhile Char.isDigit))),
            rest.dropWhile Char.isDigit)
    else none

/-- Decode what follows one decoded member value: either the `', '` item
separator (then `loop` decodes the remaining members) or the closing
brace. -/
def decodeMemberTail (loop : List Char → Option (List (String × JVal) × List Char))
    (k : List Char) (v : JVal) : List Char → Option (List (String × JVal) × List Char)
  | ',' :: ' ' :: r4 => (loop r4).map (fun p => ((⟨k⟩, v) :: p.1, p.2))
  | c2 :: r4 => if c2 = rbrace then some ([(⟨k⟩, v)], r4) else none
  | [] => none

/-- Decode the `': '` key separator and the member value that follows a
decoded key `k`. -/
def decodeMemberSep (pv : List Char → Option (JVal × List Char))
    (loop : List Char → Option (List (String × JVal) × List Char))
    (k : List Char) : List Char → Option (List (String × JVal) × List Char)
  | ':' :: ' ' :: r2 => (pv r2).bind (fun vr => decodeMemberTail loop k vr.1 vr.2)
  | _ => none

/-- Decode the members of an object after the opening brace, generic in
the value decoder; expects the canonical `": "` and `", "` separators the
json module emits. -/
def decodeMembers (pv : List Char → Option (JVal × List Char)) :
    Nat → List Char → Option (List (String × JVal) × List Char)
  | 0, _ => none
  | fuel + 1, cs =>
    match cs with
    | [] => none
    | c :: rest =>
      if c = rbrace then some ([], rest)
      else if c = '"' then
        (decodeStrBody (rest.length + 1) rest).bind (fun kr =>
          decodeMemberSep pv (fun cs2 => decodeMembers pv fuel cs2) kr.1 kr.2)
      else none

/-- Decode a value one level down: a flat object of scalars, or a scalar. -/
def decodeTopValue (cs : List Char) : Option (JVal × List Char) :=
  match cs with
  | [] => none
  | c :: rest =>
    if c = lbrace then (decodeMembers decodeScalar (rest.length + 1) rest).map
      (fun p => (.obj p.1, p.2))
    else decodeScalar cs

/-- Decode a JSON document of the shape the handler emits: an object whose
values are scalars or flat objects of scalars. -/
def jsonDecode (cs : List Char) : Option (JVal × List Char) :=
  match cs with
  | [] => none
  | c :: rest =>
    if c = lbrace then (decodeMembers decodeTopValue (rest.length + 1) rest).map
      (fun p => (.obj p.1, p.2))
    else decodeScalar cs

/-- View of a serializable scalar as a decoded JSON value (the
non-serializable constructor is never emitted, hence never decoded). -/
def jvalOfScalar : JScalar → JVal
  | .s v => .s v
  | .i v => .i v
  | .null => .null
  | .obj _ => .null

/-- View of a payload value as a decoded JSON value. -/
def jvalOfPyVal : PyVal → JVal
  | .scalar v => jvalOfScalar v
  | .dict kvs => .obj (kvs.map (fun kv => (kv.1, jvalOfScalar kv.2)))

/-- View of the payload dict as a decoded JSON value. -/
def jvalOfPayload (kvs : List (String × PyVal)) : JVal :=
  .obj (kvs.map (fun kv => (kv.1, jvalOfPyVal kv.2)))

/-- Line 24: `MAX_LOG_BYTES = 128 * 1024 * 1024`. -/
def MAX_LOG_BYTES : Nat := 128 * 1024 * 1024

/-- Line 25: `LOG_FILE_COUNT = 3`. -/
def LOG_FILE_COUNT : Nat := 3

/-- Lines 23 and 51: `LOG_PATH_TEMPLATE.format(pid=os.getpid())`, i.e.
`/var/log/app_engine/app.<pid>.json` with the pid rendered in decimal. -/
def logFilePath (pid : Nat) : String :=
  ⟨("/var/log/app_engine/app.".data ++ natDec pid) ++ ".json".data⟩

/-- Size in bytes a line occupies in the log file: the line plus the one
byte line terminator the file handler appends. -/
def lineBytes (l : String) : Nat := l.length + 1

/-- Size in bytes of a file holding the given lines. -/
def fileBytes (f : List String) : Nat := (f.map lineBytes).sum

/-- Modelled from the spec: the state of the rotating sink.  The rotation
behavior lives in `logging.handlers.RotatingFileHandler`, standard-library
code not part of this repository, so it is modelled from spec §4.3/§6:
`active` holds the lines of the active file, `backups` the backup
generations (generation 1 first), and `history` is a ghost log of every
content ever rotated out (most recent first), used to state which
generations the backups retain. -/
structure SinkState where
  active : List String
  backups : List (List String)
  history : List (List String)
deriving DecidableEq

/-- Modelled from the spec: rotation — shift backups up one generation
(dropping beyond the backup count), the active file becomes generation 1,
and a new empty active file starts. -/
def rotate (backupCount : Nat) (st : SinkState) : SinkState :=
  { active := [],
    backups := (st.active :: st.backups).take backupCount,
    history := st.active :: st.history }

/-- Modelled from the spec: one `write`.  If appending the line (plus line
terminator) would make the active file exceed `maxBytes`, rotate first;
then append the line to the active file. -/
def sinkWrite (maxBytes backupCount : Nat) (st : SinkState) (line : String) : SinkState :=
  let st2 := if maxBytes < fileBytes st.active + lineBytes line then rotate backupCount st else st
  { st2 with active := st2.active ++ [line] }

/-- A write with the configuration the handler's `__init__` passes:
`maxBytes=MAX_LOG_BYTES`, `backupCount=LOG_FILE_COUNT` (lines 47-54). -/
def cloudWrite (st : SinkState) (line : String) : SinkState :=
  sinkWrite MAX_LOG_BYTES LOG_FILE_COUNT st line

/-- The sink at process start: empty active file, no backups. -/
def initSink : SinkState := { active := [], backups := [], history := [] }

/-- A whole sequence of writes from process start. -/
def writeAll (lines : List String) : SinkState := lines.foldl cloudWrite initSink

/-! ## Timestamp lemmas -/

theorem pyInt_intCast (n : ℤ) : pyInt (n : ℚ) = n := by
  simp [pyInt]

theorem pyInt_neg (q : ℚ) : pyInt (-q) = -pyInt q := by
  simp [pyInt, Int.neg_tdiv]

theorem pyInt_eq_floor {q : ℚ} (h : 0 ≤ q) : pyInt q = ⌊q⌋ := by
  rw [pyInt, Int.tdiv_eq_ediv (Rat.num_nonneg.mpr h) (Int.natCast_nonneg q.den)]
  exact (Rat.floor_def).symm

theorem pyInt_eq_ceil {q : ℚ} (h : q ≤ 0) : pyInt q = ⌈q⌉ := by
  have h2 : pyInt q = -pyInt (-q) := by rw [pyInt_neg, neg_neg]
  rw [h2, pyInt_eq_floor (by linarith), Int.floor_neg, neg_neg]

theorem payloadSeconds_eq_pyInt (q : ℚ) : payloadSeconds q = pyInt q := by
  simp [payloadSeconds, modf, pyInt_intCast]

/-- C2 (amended): for every creation timestamp, the emitted
`timestamp.seconds` is the timestamp truncated toward zero — `⌊created⌋`
for non-negative `created`, `⌈created⌉` for negative — and
`timestamp.nanos` is `(created - seconds) * 1e9` truncated toward zero
(a floor, not round-to-nearest, for non-negative timestamps; non-positive
for negative timestamps). -/
theorem c2_timestamp_truncation (q : ℚ) :
    payloadSeconds q = (if 0 ≤ q then ⌊q⌋ else ⌈q⌉) ∧
    payloadNanos q =
      (if 0 ≤ q then ⌊(q - (⌊q⌋ : ℚ)) * 1000000000⌋ else ⌈(q - (⌈q⌉ : ℚ)) * 1000000000⌉) := by
  by_cases h : 0 ≤ q
  · have hs : pyInt q = ⌊q⌋ := pyInt_eq_floor h
    constructor
    · rw [payloadSeconds_eq_pyInt, hs, if_pos h]
    · rw [if_pos h, payloadNanos]
      show pyInt ((q - (pyInt q : ℚ)) * 1000000000) = _
      rw [hs]
      have h1 : (0 : ℚ) ≤ (q - (⌊q⌋ : ℚ)) * 1000000000 := by
        have h2 : (⌊q⌋ : ℚ) ≤ q := Int.floor_le q
        have h3 : (0 : ℚ) ≤ q - (⌊q⌋ : ℚ) := by linarith
        positivity
      exact pyInt_eq_floor h1
  · have hq : q ≤ 0 := le_of_not_le h
    have hs : pyInt q = ⌈q⌉ := pyInt_eq_ceil hq
    constructor
    · rw [payloadSeconds_eq_pyInt, hs, if_neg h]
    · rw [if_neg h, payloadNanos]
      show pyInt ((q - (pyInt q : ℚ)) * 1000000000) = _
      rw [hs]
      have h2 : q ≤ (⌈q⌉ : ℚ) := Int.le_ceil q
      have h3 : q - (⌈q⌉ : ℚ) ≤ 0 := by linarith
      have h1 : (q - (⌈q⌉ : ℚ)) * 1000000000 ≤ 0 := by
        have h4 : (0 : ℚ) ≤ (1000000000 : ℚ) := by norm_num
        exact mul_nonpos_iff.mpr (Or.inr ⟨h3, h4⟩)
      exact pyInt_eq_ceil h1

/-- C2 (counterexample): at `created = -3/2` the emitted `seconds` is `-1`,
not `⌊-3/2⌋ = -2`; and at `created = 2/3` the emitted `nanos` is the
truncation `666666666`, not `round((2/3)·1e9) = 666666667`.  So seconds is
not the floor for negative timestamps, and nanos is not round-to-nearest. -/
theorem c2_counterexample :
    payloadSeconds ((-3 : ℚ) / 2) ≠ ⌊((-3 : ℚ) / 2)⌋ ∧
    payloadNanos ((2 : ℚ) / 3) ≠
      round ((((2 : ℚ) / 3) - (⌊((2 : ℚ) / 3)⌋ : ℚ)) * 1000000000) := by
  have hfA : (⌊((-3 : ℚ) / 2)⌋ : ℤ) = -2 := by
    rw [Int.floor_eq_iff]; norm_num
  have hsA : payloadSeconds ((-3 : ℚ) / 2) = -1 := by
    rw [payloadSeconds_eq_pyInt, pyInt_eq_ceil (by norm_num)]
    rw [Int.ceil_eq_iff]; norm_num
  have hfB : (⌊((2 : ℚ) / 3)⌋ : ℤ) = 0 := by
    rw [Int.floor_eq_iff]; norm_num
  have hnB : payloadNanos ((2 : ℚ) / 3) = 666666666 := by
    rcases c2_timestamp_truncation ((2 : ℚ) / 3) with ⟨-, hn⟩
    rw [hn, if_pos (by norm_num : (0:ℚ) ≤ (2 : ℚ) / 3), hfB]
    rw [Int.floor_eq_iff]; norm_num
  have hrB : round ((((2 : ℚ) / 3) - (⌊((2 : ℚ) / 3)⌋ : ℚ)) * 1000000000) = 666666667 := by
    rw [hfB, round_eq, Int.floor_eq_iff]; norm_num
  refine ⟨?_, ?_⟩
  · rw [hsA, hfA]; decide
  · rw [hnB, hrB]; decide

/-- C10: for every record with non-negative creation timestamp, the emitted
`timestamp.nanos` lies in `[0, 999999999]` — it never reaches `1e9`. -/
theorem c10_nanos_range (r : LogRecord) (h : 0 ≤ r.created) :
    0 ≤ payloadNanos r.created ∧ payloadNanos r.created ≤ 999999999 := by
  rcases c2_timestamp_truncation r.created with ⟨-, hn⟩
  rw [hn, if_pos h]
  set q := r.created with hq
  have hfl : (⌊q⌋ : ℚ) ≤ q := Int.floor_le q
  have hlt : q - (⌊q⌋ : ℚ) < 1 := by
    have := Int.lt_floor_add_one q
    linarith
  have hge : (0 : ℚ) ≤ q - (⌊q⌋ : ℚ) := by linarith
  constructor
  · exact Int.floor_nonneg.mpr (by positivity)
  · have hlt2 : (q - (⌊q⌋ : ℚ)) * 1000000000 < 1000000000 := by nlinarith
    have h9 : ⌊(q - (⌊q⌋ : ℚ)) * 1000000000⌋ < (1000000000 : ℤ) := by
      apply Int.floor_lt.mpr
      push_cast
      exact hlt2
    linarith

/-- C10 (witness): a concrete record with non-negative timestamp. -/
def c10rec : LogRecord :=
  { msg := "w", created := (3 : ℚ) / 4, thread := some 7, levelname := "DEBUG", trace_id := none }

/-- C10 (witness): the nanos bound instantiated at `created = 3/4`. -/
theorem c10_nanos_range_witness :
    0 ≤ payloadNanos c10rec.created ∧ payloadNanos c10rec.created ≤ 999999999 :=
  c10_nanos_range c10rec (by norm_num [c10rec])

/-! ## Trace resolution lemmas -/

theorem pySplit_headD (sep : Char) (l : List Char) :
    (pySplit sep l).headD [] = l.takeWhile (fun c => c != sep) := by
  induction l with
  | nil => rfl
  | cons c t ih =>
    by_cases h : c = sep
    · subst h; simp [pySplit, List.takeWhile_cons]
    · rw [pySplit, if_neg h, List.headD_cons, ih, List.takeWhile_cons]
      simp [h]

theorem isEmpty_mk (l : List Char) : (String.mk l).isEmpty = true ↔ l = [] := by
  rw [String.isEmpty_iff]
  constructor
  · intro h; exact congrArg String.data h
  · intro h; subst h; rfl

theorem isEmpty_mk_false {l : List Char} (h : l ≠ []) : (String.mk l).isEmpty = false := by
  cases hb : (String.mk l).isEmpty with
  | false => rfl
  | true => exact absurd ((isEmpty_mk l).mp hb) h

/-- C3: a present, non-empty explicit `trace_id` string on the record makes
the emitted `traceId` equal to it, whatever the ambient header holds. -/
theorem c3_explicit_trace_wins (r : LogRecord) (header : String) (s : String)
    (ht : r.trace_id = some (.str s)) (hs : s ≠ "") :
    getKey "traceId" (buildPayload r header) = some (.scalar (.s s)) := by
  have hemp : s.isEmpty = false := by
    cases hb : s.isEmpty with
    | false => rfl
    | true => exact absurd (String.isEmpty_iff s |>.mp hb) hs
  have htr : truthy r.trace_id = true := by
    rw [ht]; simp [truthy, truthyObj, hemp]
  have hres : resolveTrace r.trace_id header = some (.str s) := by
    rw [resolveTrace, htr, ht]
    show (if truthy (some (PyObj.str s)) = true then _ else _) = _
    simp [truthy, truthyObj, hemp]
  simp only [buildPayload, hres]
  rfl

/-- C3 (witness): a record carrying `trace_id = "abc"` with a conflicting
ambient header. -/
def c3rec : LogRecord :=
  { msg := "m", created := 0, thread := none, levelname := "INFO",
    trace_id := some (.str "abc") }

/-- C3 (witness): the explicit value wins over header `"zzz/1"`. -/
theorem c3_explicit_trace_wins_witness :
    getKey "traceId" (buildPayload c3rec "zzz/1") = some (.scalar (.s "abc")) :=
  c3_explicit_trace_wins c3rec "zzz/1" "abc" rfl (by decide)

/-- C4: with no (or empty) explicit `trace_id`, the emitted `traceId` is the
portion of the header before the first `/` when non-empty, and the key is
absent when that portion is empty. -/
theorem c4_header_fallback (r : LogRecord) (header : String)
    (h : r.trace_id = none ∨ r.trace_id = some (.str "")) :
    getKey "traceId" (buildPayload r header) =
      (if header.data.takeWhile (fun c => c != '/') = [] then none
       else some (.scalar (.s ⟨header.data.takeWhile (fun c => c != '/')⟩))) := by
  have htr : truthy r.trace_id = false := by
    rcases h with h | h
    · rw [h]; rfl
    · rw [h]; rfl
  have hht : headerTraceId header = ⟨header.data.takeWhile (fun c => c != '/')⟩ := by
    rw [headerTraceId, pySplit_headD]
  by_cases he : header.data.takeWhile (fun c => c != '/') = []
  · rw [if_pos he]
    have hres : resolveTrace r.trace_id header = none := by
      rw [resolveTrace, htr, hht, he]
      rfl
    simp only [buildPayload, hres]
    rfl
  · rw [if_neg he]
    have ht2 : truthy (some (PyObj.str ⟨header.data.takeWhile (fun c => c != '/')⟩)) = true := by
      simp [truthy, truthyObj, isEmpty_mk_false he]
    have hres : resolveTrace r.trace_id header =
        some (.str ⟨header.data.takeWhile (fun c => c != '/')⟩) := by
      rw [resolveTrace, htr, hht]
      show (if truthy (some (PyObj.str _)) = true then _ else _) = _
      rw [ht2]
      rfl
    simp only [buildPayload, hres]
    rfl

/-- C4 (witness): the spec's example header and the empty header, with no
explicit trace id on the record. -/
def c4rec : LogRecord :=
  { msg := "m", created := 0, thread := none, levelname := "INFO", trace_id := none }

/-- C4 (witness): header `"abc123/options=1"` yields `traceId "abc123"`;
the empty header yields no `traceId` key. -/
theorem c4_header_fallback_witness :
    getKey "traceId" (buildPayload c4rec "abc123/options=1") = some (.scalar (.s "abc123")) ∧
    getKey "traceId" (buildPayload c4rec "") = none := by
  constructor
  · rw [c4_header_fallback c4rec "abc123/options=1" (Or.inl rfl)]
    rfl
  · rw [c4_header_fallback c4rec "" (Or.inl rfl)]
    rfl

/-- C9: the payload has exactly the keys `message`, `timestamp`, `thread`,
`severity` — plus `traceId` exactly when a trace id resolves — and the
`timestamp` value is a dict with exactly the keys `seconds`, `nanos`. -/
theorem c9_payload_keys (r : LogRecord) (header : String) :
    (buildPayload r header).map Prod.fst =
      ["message", "timestamp", "thread", "severity"] ++
        (if (resolveTrace r.trace_id header).isSome then ["traceId"] else []) ∧
    ∃ kvs, getKey "timestamp" (buildPayload r header) = some (.dict kvs) ∧
      kvs.map Prod.fst = ["seconds", "nanos"] := by
  refine ⟨?_, ?_⟩
  · cases hres : resolveTrace r.trace_id header with
    | none => simp [buildPayload, hres]
    | some t => simp [buildPayload, hres]
  · refine ⟨[("seconds", .i (payloadSeconds r.created)),
            ("nanos", .i (payloadNanos r.created))], ?_, rfl⟩
    cases hres : resolveTrace r.trace_id header with
    | none => simp only [buildPayload, hres]; rfl
    | some t => simp only [buildPayload, hres]; rfl

/-! ## Serializability (C1) -/

theorem isSomeMap {α β : Type} (f : α → β) (o : Option α) : (o.map f).isSome = o.isSome := by
  cases o with
  | none => rfl
  | some a => rfl

theorem dumpMembersG_isSome_iff {α : Type} (dv : α → Option (List Char)) (kvs : List (String × α)) :
    (dumpMembersG dv kvs).isSome = true ↔ ∀ kv ∈ kvs, (dv kv.2).isSome = true := by
  induction kvs with
  | nil => simp [dumpMembersG]
  | cons kv t ih =>
    cases t with
    | nil => simp [dumpMembersG]
    | cons kv2 t2 =>
      cases hdv : dv kv.2 with
      | none => simp [dumpMembersG, hdv]
      | some d => simp [dumpMembersG, hdv, ih]

/-- C1 (counterexample record): the `trace_id` attribute is a non-string,
non-JSON-serializable object attached via `extra`. -/
def c1rec : LogRecord :=
  { msg := "boom", created := 0, thread := some 2, levelname := "ERROR",
    trace_id := some (.obj 0) }

/-- C1 (counterexample): with a non-serializable payload field value
(`traceId`), `format` raises (modelled `.error ()`) — no string coercion
happens and no JSON line is returned. -/
theorem c1_counterexample : CloudLoggingHandler.format c1rec "" = .error () := by rfl

/-- C1 (amended): `format` returns a JSON line iff no payload field value is
a non-serializable object, i.e. iff the resolved trace id is not a
non-string object; for such an object `json.dumps` raises a TypeError
instead of coercing the value to a string. -/
theorem c1_serializability (r : LogRecord) (header : String) :
    (∃ line, CloudLoggingHandler.format r header = .ok line) ↔
      ∀ n, resolveTrace r.trace_id header ≠ some (PyObj.obj n) := by
  have hfmt : (∃ line, CloudLoggingHandler.format r header = .ok line) ↔
      (json_dumps (buildPayload r header)).isSome = true := by
    rw [CloudLoggingHandler.format]
    cases json_dumps (buildPayload r header) with
    | none => simp
    | some cs => simp
  have hbase : ∀ kv ∈ [("message", PyVal.scalar (.s r.msg)),
      ("timestamp", PyVal.dict [("seconds", .i (payloadSeconds r.created)),
                                ("nanos", .i (payloadNanos r.created))]),
      ("thread", PyVal.scalar (threadScalar r.thread)),
      ("severity", PyVal.scalar (.s r.levelname))], (dumpPyVal kv.2).isSome = true := by
    intro kv hkv
    rcases List.mem_cons.mp hkv with rfl | hkv
    · rfl
    rcases List.mem_cons.mp hkv with rfl | hkv
    · rfl
    rcases List.mem_cons.mp hkv with rfl | hkv
    · cases r.thread with
      | none => rfl
      | some n => rfl
    rcases List.mem_cons.mp hkv with rfl | hkv
    · rfl
    cases hkv
  rw [hfmt, json_dumps, isSomeMap, dumpMembersG_isSome_iff]
  cases hres : resolveTrace r.trace_id header with
  | none =>
    simp only [buildPayload, hres]
    constructor
    · intro _ n hn; cases hn
    · intro _; exact hbase
  | some t =>
    simp only [buildPayload, hres]
    constructor
    · intro hall n hn
      have h1 := hall ("traceId", PyVal.scalar (scalarOfPyObj t)) (by simp)
      have ht : t = PyObj.obj n := Option.some.inj hn
      subst ht
      simp [dumpPyVal, dumpScalar, scalarOfPyObj] at h1
    · intro hno kv hkv
      rcases List.mem_append.mp hkv with h | h
      · exact hbase kv h
      · rcases List.mem_singleton.mp h with rfl
        cases t with
        | str s => rfl
        | obj n => exact absurd rfl (hno n)

/-! ## Decimal representation lemmas and the log path (C8) -/

theorem decDigit_toNat {n : Nat} (h : n < 10) : (decDigit n).toNat = 48 + n := by
  interval_cases n
  all_goals decide

theorem digitsVal_append_digit (l : List Char) (c : Char) :
    digitsVal (l ++ [c]) = digitsVal l * 10 + (c.toNat - 48) := by
  rw [digitsVal, digitsVal, List.foldl_append]
  rfl

theorem natDecAux_val : ∀ fuel n : Nat, n < fuel → digitsVal (natDecAux fuel n) = n := by
  intro fuel
  induction fuel with
  | zero => intro n h; omega
  | succ f ih =>
    intro n h
    rw [natDecAux]
    by_cases h10 : n < 10
    · rw [if_pos h10]
      show digitsVal [decDigit n] = n
      have : digitsVal [decDigit n] = 0 * 10 + ((decDigit n).toNat - 48) := rfl
      rw [this, decDigit_toNat h10]
      omega
    · rw [if_neg h10]
      rw [digitsVal_append_digit, ih (n / 10) (by omega)]
      rw [decDigit_toNat (Nat.mod_lt n (by norm_num))]
      omega

theorem natDec_val (n : Nat) : digitsVal (natDec n) = n :=
  natDecAux_val (n + 1) n (by omega)

/-- C8: the active log file path is `/var/log/app_engine/app.<pid>.json`;
distinct process ids always yield distinct paths, so two processes with
distinct pids never write to the same file. -/
theorem c8_path_injective (p q : Nat) (h : p ≠ q) : logFilePath p ≠ logFilePath q := by
  intro he
  apply h
  have hd : ("/var/log/app_engine/app.".data ++ natDec p) ++ ".json".data
      = ("/var/log/app_engine/app.".data ++ natDec q) ++ ".json".data := congrArg String.data he
  have h2 := List.append_cancel_right hd
  have h3 := List.append_cancel_left h2
  have h4 := congrArg digitsVal h3
  rwa [natDec_val, natDec_val] at h4

/-- C8 (witness): pids 1 and 2 give different paths. -/
theorem c8_path_injective_witness : logFilePath 1 ≠ logFilePath 2 :=
  c8_path_injective 1 2 (by decide)

/-! ## Rotation (C6, C7) -/

/-- C6: when appending the line (plus line terminator) would push the active
file over `MAX_LOG_BYTES` (128 MiB), the write rotates exactly once and then
writes: the new active file holds exactly the in-flight line, the prior
active content becomes backup generation 1, older backups shift up one
generation (clipped to `LOG_FILE_COUNT`), and the rotation history grows by
exactly one entry — the record lands exactly once, neither lost nor
duplicated across the rotation. -/
theorem c6_rotation_at_crossing (st : SinkState) (line : String)
    (h : MAX_LOG_BYTES < fileBytes st.active + lineBytes line) :
    cloudWrite st line =
      { active := [line],
        backups := (st.active :: st.backups).take LOG_FILE_COUNT,
        history := st.active :: st.history } ∧
    (cloudWrite st line).backups.head? = some st.active := by
  constructor
  · rw [cloudWrite, sinkWrite, if_pos h]
    rfl
  · rw [cloudWrite, sinkWrite, if_pos h]
    rfl

/-- C6 (witness): a line of `MAX_LOG_BYTES` characters crosses the threshold
already at the initial state. -/
def bigLine : String := ⟨List.replicate MAX_LOG_BYTES 'a'⟩

/-- C6 (witness): the crossing write at the initial state, instantiated. -/
theorem c6_rotation_at_crossing_witness :
    MAX_LOG_BYTES < fileBytes initSink.active + lineBytes bigLine ∧
    (cloudWrite initSink bigLine =
      { active := [bigLine],
        backups := (initSink.active :: initSink.backups).take LOG_FILE_COUNT,
        history := initSink.active :: initSink.history } ∧
     (cloudWrite initSink bigLine).backups.head? = some initSink.active) := by
  have hlen : bigLine.length = MAX_LOG_BYTES := by
    rw [bigLine, String.length]
    exact List.length_replicate _ _
  have h : MAX_LOG_BYTES < fileBytes initSink.active + lineBytes bigLine := by
    rw [lineBytes, hlen]
    show MAX_LOG_BYTES < fileBytes [] + (MAX_LOG_BYTES + 1)
    rw [fileBytes]
    omega
  exact ⟨h, c6_rotation_at_crossing initSink bigLine h⟩

theorem cloudWrite_backups_inv (st : SinkState) (line : String)
    (h : st.backups = st.history.take LOG_FILE_COUNT) :
    (cloudWrite st line).backups = (cloudWrite st line).history.take LOG_FILE_COUNT := by
  rw [cloudWrite, sinkWrite]
  by_cases hc : MAX_LOG_BYTES < fileBytes st.active + lineBytes line
  · rw [if_pos hc]
    show (st.active :: st.backups).take LOG_FILE_COUNT
        = (st.active :: st.history).take LOG_FILE_COUNT
    rw [h, LOG_FILE_COUNT, List.take_succ_cons, List.take_succ_cons, List.take_take]
    norm_num
  · rw [if_neg hc]
    exact h

theorem writeAll_backups_inv (lines : List String) :
    ∀ st : SinkState, st.backups = st.history.take LOG_FILE_COUNT →
      (lines.foldl cloudWrite st).backups
        = (lines.foldl cloudWrite st).history.take LOG_FILE_COUNT := by
  induction lines with
  | nil => intro st h; exact h
  | cons l t ih => intro st h; exact ih _ (cloudWrite_backups_inv st l h)

/-- C7: after any sequence of writes from process start, the backups are
exactly the `LOG_FILE_COUNT` most recent rotated generations: the backup
list is the first `LOG_FILE_COUNT` entries of the rotation history (most
recent first, older generations absent), its length is `min (number of
rotations) LOG_FILE_COUNT` — so at most `LOG_FILE_COUNT` backups ever
exist, and active plus backups never exceed `LOG_FILE_COUNT + 1` files. -/
theorem c7_backup_retention (lines : List String) :
    (writeAll lines).backups = (writeAll lines).history.take LOG_FILE_COUNT ∧
    (writeAll lines).backups.length = min (writeAll lines).history.length LOG_FILE_COUNT ∧
    (writeAll lines).backups.length ≤ LOG_FILE_COUNT ∧
    (writeAll lines).backups.length + 1 ≤ LOG_FILE_COUNT + 1 := by
  have h : (writeAll lines).backups = (writeAll lines).history.take LOG_FILE_COUNT := by
    rw [writeAll]
    exact writeAll_backups_inv lines initSink rfl
  have hlen : (writeAll lines).backups.length
      = min (writeAll lines).history.length LOG_FILE_COUNT := by
    rw [h, List.length_take, Nat.min_comm]
  refine ⟨h, hlen, ?_, ?_⟩
  · rw [hlen]; exact Nat.min_le_right _ _
  · rw [hlen]; exact Nat.add_le_add_right (Nat.min_le_right _ _) 1

/-! ## JSON string escaping roundtrip (C5) -/

theorem charToNat_ofNat {n : Nat} (h : n < 0xd800 ∨ (0xdfff < n ∧ n < 0x110000)) :
    (Char.ofNat n).toNat = n := by
  rw [Char.ofNat, dif_pos h]
  show (UInt32.ofNat' n _).toNat = n
  rfl

theorem charValid (c : Char) : c.toNat < 0xd800 ∨ (0xdfff < c.toNat ∧ c.toNat < 0x110000) := by
  rcases c.valid with h | ⟨h1, h2⟩
  · exact Or.inl h
  · exact Or.inr ⟨h1, h2⟩

theorem charNe_of_toNat_ne {c d : Char} (h : c.toNat ≠ d.toNat) : c ≠ d :=
  fun he => h (congrArg Char.toNat he)

theorem isDigit_iff (c : Char) : c.isDigit = true ↔ 48 ≤ c.toNat ∧ c.toNat ≤ 57 := by
  rw [Char.isDigit]
  simp [UInt32.le_def, BitVec.le_def]
  constructor
  · intro ⟨h1, h2⟩
    exact ⟨h1, h2⟩
  · intro ⟨h1, h2⟩
    exact ⟨h1, h2⟩

theorem hexVal_hexDig {d : Nat} (h : d < 16) : hexVal (hexDig d) = some d := by
  interval_cases d
  all_goals decide

theorem hex4_encode {m : Nat} (h : m < 65536) :
    hex4 (hexDig (m / 4096 % 16)) (hexDig (m / 256 % 16)) (hexDig (m / 16 % 16))
      (hexDig (m % 16)) = some m := by
  rw [hex4, hexVal_hexDig (Nat.mod_lt _ (by norm_num)), hexVal_hexDig (Nat.mod_lt _ (by norm_num)),
    hexVal_hexDig (Nat.mod_lt _ (by norm_num)), hexVal_hexDig (Nat.mod_lt _ (by norm_num))]
  show some (((m / 4096 % 16 * 16 + m / 256 % 16) * 16 + m / 16 % 16) * 16 + m % 16) = some m
  congr 1
  omega

theorem decodeUHex_scalar (k : List Char → Option (List Char × List Char)) {n : Nat}
    (h : n < 0xd800 ∨ 0xe000 ≤ n) (rest : List Char) :
    decodeUHex k n rest = (k rest).map (fun p => (Char.ofNat n :: p.1, p.2)) := by
  rw [decodeUHex, if_pos h]

theorem decodeLowSurrogate_enc (k : List Char → Option (List Char × List Char)) (n m : Nat)
    (hm1 : 0xdc00 ≤ m) (hm2 : m < 0xe000) (X : List Char) :
    decodeLowSurrogate k n (uEsc m ++ X) =
      (k X).map (fun p => (Char.ofNat (0x10000 + (n - 0xd800) * 0x400 + (m - 0xdc00)) :: p.1, p.2)) := by
  rw [uEsc]
  have step : decodeLowSurrogate k n
      (('\\' :: 'u' :: hexDig (m / 4096 % 16) :: hexDig (m / 256 % 16) ::
        hexDig (m / 16 % 16) :: hexDig (m % 16) :: []) ++ X)
      = (hex4 (hexDig (m / 4096 % 16)) (hexDig (m / 256 % 16)) (hexDig (m / 16 % 16))
          (hexDig (m % 16))).bind (fun m2 =>
            if 0xdc00 ≤ m2 ∧ m2 < 0xe000 then
              (k X).map (fun p =>
                (Char.ofNat (0x10000 + (n - 0xd800) * 0x400 + (m2 - 0xdc00)) :: p.1, p.2))
            else none) := rfl
  rw [step, hex4_encode (by omega)]
  show (if 0xdc00 ≤ m ∧ m < 0xe000 then _ else none) = _
  rw [if_pos ⟨hm1, hm2⟩]

theorem decodeUHex_pair (k : List Char → Option (List Char × List Char)) {n m : Nat}
    (hn1 : 0xd800 ≤ n) (hn2 : n < 0xdc00) (hm1 : 0xdc00 ≤ m) (hm2 : m < 0xe000)
    (X : List Char) :
    decodeUHex k n (uEsc m ++ X) =
      (k X).map (fun p => (Char.ofNat (0x10000 + (n - 0xd800) * 0x400 + (m - 0xdc00)) :: p.1, p.2)) := by
  have hno : ¬(n < 0xd800 ∨ 0xe000 ≤ n) := by omega
  rw [decodeUHex, if_neg hno, if_pos hn2]
  exact decodeLowSurrogate_enc k n m hm1 hm2 X

theorem decodeStrBody_uEsc (n : Nat) (X : List Char) (fuel : Nat) (hn : n < 65536) :
    decodeStrBody (fuel + 1) (uEsc n ++ X)
      = decodeUHex (fun cs2 => decodeStrBody fuel cs2) n X := by
  rw [uEsc]
  have step : decodeStrBody (fuel + 1)
      (('\\' :: 'u' :: hexDig (n / 4096 % 16) :: hexDig (n / 256 % 16) ::
        hexDig (n / 16 % 16) :: hexDig (n % 16) :: []) ++ X)
      = (hex4 (hexDig (n / 4096 % 16)) (hexDig (n / 256 % 16)) (hexDig (n / 16 % 16))
          (hexDig (n % 16))).bind
          (fun m => decodeUHex (fun cs2 => decodeStrBody fuel cs2) m X) := rfl
  rw [step, hex4_encode hn]
  rfl

theorem decodeStrBody_enc :
    ∀ (l rest : List Char) (fuel : Nat), l.length < fuel →
      decodeStrBody fuel (encStrL l ++ '"' :: rest) = some (l, rest) := by
  intro l
  induction l with
  | nil =>
    intro rest fuel h
    cases fuel with
    | zero => exact absurd h (by omega)
    | succ fuel => rfl
  | cons c t ih =>
    intro rest fuel h
    cases fuel with
    | zero => exact absurd h (by omega)
    | succ fuel =>
    have hf : t.length < fuel := by
      simp only [List.length_cons] at h
      omega
    have iht := ih rest fuel hf
    rw [encStrL, List.append_assoc, encChar]
    by_cases h1 : c = '"'
    · subst h1
      rw [if_pos rfl]
      have step : decodeStrBody (fuel + 1) (['\\', '"'] ++ (encStrL t ++ '"' :: rest))
          = (decodeStrBody fuel (encStrL t ++ '"' :: rest)).map
              (fun p => ('"' :: p.1, p.2)) := rfl
      rw [step, iht]
      rfl
    rw [if_neg h1]
    by_cases h2 : c = '\\'
    · subst h2
      rw [if_pos rfl]
      have step : decodeStrBody (fuel + 1) (['\\', '\\'] ++ (encStrL t ++ '"' :: rest))
          = (decodeStrBody fuel (encStrL t ++ '"' :: rest)).map
              (fun p => ('\\' :: p.1, p.2)) := rfl
      rw [step, iht]
      rfl
    rw [if_neg h2]
    by_cases h3 : c = '\x08'
    · subst h3
      rw [if_pos rfl]
      have step : decodeStrBody (fuel + 1) (['\\', 'b'] ++ (encStrL t ++ '"' :: rest))
          = (decodeStrBody fuel (encStrL t ++ '"' :: rest)).map
              (fun p => ('\x08' :: p.1, p.2)) := rfl
      rw [step, iht]
      rfl
    rw [if_neg h3]
    by_cases h4 : c = '\x0c'
    · subst h4
      rw [if_pos rfl]
      have step : decodeStrBody (fuel + 1) (['\\', 'f'] ++ (encStrL t ++ '"' :: rest))
          = (decodeStrBody fuel (encStrL t ++ '"' :: rest)).map
              (fun p => ('\x0c' :: p.1, p.2)) := rfl
      rw [step, iht]
      rfl
    rw [if_neg h4]
    by_cases h5 : c = '\n'
    · subst h5
      rw [if_pos rfl]
      have step : decodeStrBody (fuel + 1) (['\\', 'n'] ++ (encStrL t ++ '"' :: rest))
          = (decodeStrBody fuel (encStrL t ++ '"' :: rest)).map
              (fun p => ('\n' :: p.1, p.2)) := rfl
      rw [step, iht]
      rfl
    rw [if_neg h5]
    by_cases h6 : c = '\r'
    · subst h6
      rw [if_pos rfl]
      have step : decodeStrBody (fuel + 1) (['\\', 'r'] ++ (encStrL t ++ '"' :: rest))
          = (decodeStrBody fuel (encStrL t ++ '"' :: rest)).map
              (fun p => ('\r' :: p.1, p.2)) := rfl
      rw [step, iht]
      rfl
    rw [if_neg h6]
    by_cases h7 : c = '\t'
    · subst h7
      rw [if_pos rfl]
      have step : decodeStrBody (fuel + 1) (['\\', 't'] ++ (encStrL t ++ '"' :: rest))
          = (decodeStrBody fuel (encStrL t ++ '"' :: rest)).map
              (fun p => ('\t' :: p.1, p.2)) := rfl
      rw [step, iht]
      rfl
    rw [if_neg h7]
    by_cases h8 : 0x20 ≤ c.toNat ∧ c.toNat ≤ 0x7e
    · rw [if_pos h8]
      simp only [List.singleton_append]
      simp only [decodeStrBody]
      rw [if_neg h1, if_neg h2, if_neg (by omega : ¬c.toNat < 0x20), iht]
      rfl
    rw [if_neg h8]
    by_cases h9 : c.toNat < 0x10000
    · rw [if_pos h9]
      have hval : c.toNat < 0xd800 ∨ 0xe000 ≤ c.toNat := by
        rcases charValid c with hv | ⟨hv1, hv2⟩
        · exact Or.inl hv
        · exact Or.inr (by omega)
      rw [decodeStrBody_uEsc _ _ _ (by omega), decodeUHex_scalar _ hval]
      simp [iht, Char.ofNat_toNat]
    · rw [if_neg h9]
      have hv2 : c.toNat < 0x110000 := by
        rcases charValid c with hv | ⟨hv1, hv2⟩
        · omega
        · exact hv2
      have hdiv : (c.toNat - 0x10000) / 0x400 < 0x400 := by omega
      rw [List.append_assoc, decodeStrBody_uEsc _ _ _ (by omega)]
      rw [decodeUHex_pair _ (by omega) (by omega) (by omega) (by omega)]
      simp only [iht]
      have harith : 65536 + (55296 + (c.toNat - 65536) / 1024 - 55296) * 1024 +
          (56320 + (c.toNat - 65536) % 1024 - 56320) = c.toNat := by omega
      rw [harith, Char.ofNat_toNat]
      rfl

/-! ## Scalar serialization roundtrip (C5) -/

theorem encChar_length_pos (c : Char) : 0 < (encChar c).length := by
  rw [encChar]
  split_ifs
  all_goals simp [uEsc]

theorem length_le_encStrL (l : List Char) : l.length ≤ (encStrL l).length := by
  induction l with
  | nil => simp [encStrL]
  | cons c t ih =>
    rw [encStrL]
    rw [List.length_append, List.length_cons]
    have := encChar_length_pos c
    omega

theorem mk_data (s : String) : String.mk s.data = s := rfl

theorem decodeScalar_str (v : String) (rest : List Char) :
    decodeScalar (('"' :: (encStrL v.data ++ ['"'])) ++ rest) = some (.s v, rest) := by
  have hassoc : ('"' :: (encStrL v.data ++ ['"'])) ++ rest
      = '"' :: (encStrL v.data ++ '"' :: rest) := by simp
  rw [hassoc]
  have step : decodeScalar ('"' :: (encStrL v.data ++ '"' :: rest))
      = (decodeStrBody ((encStrL v.data ++ '"' :: rest).length + 1)
          (encStrL v.data ++ '"' :: rest)).map (fun p => (.s ⟨p.1⟩, p.2)) := rfl
  have hlen : v.data.length < (encStrL v.data ++ '"' :: rest).length + 1 := by
    have := length_le_encStrL v.data
    rw [List.length_append]
    omega
  rw [step, decodeStrBody_enc v.data rest _ hlen]
  rfl

theorem decodeScalar_null (rest : List Char) :
    decodeScalar (['n', 'u', 'l', 'l'] ++ rest) = some (.null, rest) := rfl

theorem natDecAux_digits :
    ∀ fuel n : Nat, n < fuel → ∀ c ∈ natDecAux fuel n, 48 ≤ c.toNat ∧ c.toNat ≤ 57 := by
  intro fuel
  induction fuel with
  | zero => intro n h; omega
  | succ f ih =>
    intro n h c hc
    rw [natDecAux] at hc
    by_cases h10 : n < 10
    · rw [if_pos h10] at hc
      rcases List.mem_singleton.mp hc with rfl
      rw [decDigit_toNat h10]
      omega
    · rw [if_neg h10] at hc
      rcases List.mem_append.mp hc with hc | hc
      · exact ih (n / 10) (by omega) c hc
      · rcases List.mem_singleton.mp hc with rfl
        rw [decDigit_toNat (Nat.mod_lt n (by norm_num))]
        have := Nat.mod_lt n (show 0 < 10 by norm_num)
        omega

theorem natDec_digits (n : Nat) : ∀ c ∈ natDec n, 48 ≤ c.toNat ∧ c.toNat ≤ 57 :=
  natDecAux_digits (n + 1) n (by omega)

theorem natDec_ne_nil (n : Nat) : natDec n ≠ [] := by
  rw [natDec, natDecAux]
  by_cases h : n < 10
  · rw [if_pos h]; simp
  · rw [if_neg h]; simp

theorem takeWhile_append_all {p : Char → Bool} (l r : List Char)
    (hl : ∀ c ∈ l, p c = true) (hr : ∀ c, r.head? = some c → p c = false) :
    (l ++ r).takeWhile p = l ∧ (l ++ r).dropWhile p = r := by
  induction l with
  | nil =>
    simp only [List.nil_append]
    cases r with
    | nil => simp
    | cons c rr =>
      have hc := hr c rfl
      rw [List.takeWhile_cons, List.dropWhile_cons]
      simp [hc]
  | cons a l ih =>
    have ha : p a = true := hl a (by simp)
    have ih2 := ih (fun c hc => hl c (by simp [hc]))
    rw [List.cons_append, List.takeWhile_cons, List.dropWhile_cons]
    simp only [ha, if_true]
    exact ⟨by rw [ih2.1], by rw [ih2.2]⟩

theorem decodeScalar_int (v : Int) (rest : List Char)
    (hr : ∀ c, rest.head? = some c → c.isDigit = false) :
    decodeScalar (intRepr v ++ rest) = some (.i v, rest) := by
  have h34 : ('"').toNat = 34 := rfl
  have h110 : ('n').toNat = 110 := rfl
  have h45 : ('-').toNat = 45 := rfl
  obtain ⟨d, ds, hd⟩ := List.exists_cons_of_ne_nil (natDec_ne_nil v.natAbs)
  have hdig : ∀ c ∈ natDec v.natAbs, c.isDigit = true := by
    intro c hc
    rcases natDec_digits v.natAbs c hc with ⟨hc1, hc2⟩
    exact (isDigit_iff c).mpr ⟨hc1, hc2⟩
  have hddig : d.isDigit = true := hdig d (by rw [hd]; simp)
  rcases (isDigit_iff d).mp hddig with ⟨hd48, hd57⟩
  have htw := takeWhile_append_all (p := Char.isDigit) ds rest
    (fun c hc => hdig c (by rw [hd]; simp [hc])) hr
  have hval : digitsVal (d :: ds) = v.natAbs := by
    rw [← hd, natDec_val]
  by_cases hneg : v < 0
  · rw [intRepr, if_pos hneg, hd]
    have step : decodeScalar (('-' :: d :: ds) ++ rest)
        = decodeNegNum (d :: (ds ++ rest)) := rfl
    have step2 : decodeNegNum (d :: (ds ++ rest))
        = (if d.isDigit then
            some (.i (-(Int.ofNat (digitsVal (d :: (ds ++ rest).takeWhile Char.isDigit)))),
                  (ds ++ rest).dropWhile Char.isDigit)
           else none) := rfl
    rw [step, step2, if_pos hddig, htw.1, htw.2, hval]
    have hcast : (Int.ofNat v.natAbs) = -v := Int.ofNat_natAbs_of_nonpos (by omega)
    rw [hcast, neg_neg]
  · rw [intRepr, if_neg hneg, hd]
    have hne1 : d ≠ '"' := charNe_of_toNat_ne (by omega)
    have hne2 : d ≠ 'n' := charNe_of_toNat_ne (by omega)
    have hne3 : d ≠ '-' := charNe_of_toNat_ne (by omega)
    have step : decodeScalar (d :: ds ++ rest)
        = (if d = '"' then
            (decodeStrBody (((ds ++ rest)).length + 1) (ds ++ rest)).map
              (fun p => (.s ⟨p.1⟩, p.2))
           else if d = 'n' then decodeNull (ds ++ rest)
           else if d = '-' then decodeNegNum (ds ++ rest)
           else if d.isDigit then
             some (.i (Int.ofNat (digitsVal (d :: (ds ++ rest).takeWhile Char.isDigit))),
                   (ds ++ rest).dropWhile Char.isDigit)
           else none) := rfl
    rw [step, if_neg hne1, if_neg hne2, if_neg hne3, if_pos hddig]
    rw [htw.1, htw.2, hval]
    have hcast : (Int.ofNat v.natAbs) = v := Int.natAbs_of_nonneg (by omega)
    rw [hcast]

theorem decodeScalar_dump (v : JScalar) (d : List Char) (hd : dumpScalar v = some d)
    (rest : List Char) (hr : ∀ c, rest.head? = some c → c.isDigit = false) :
    decodeScalar (d ++ rest) = some (jvalOfScalar v, rest) := by
  cases v with
  | s str =>
    have hd2 : '"' :: (encStrL str.data ++ ['"']) = d := Option.some.inj hd
    rw [← hd2]
    exact decodeScalar_str str rest
  | i n =>
    have hd2 : intRepr n = d := Option.some.inj hd
    rw [← hd2]
    exact decodeScalar_int n rest hr
  | null =>
    have hd2 : ['n', 'u', 'l', 'l'] = d := Option.some.inj hd
    rw [← hd2]
    exact decodeScalar_null rest
  | obj m => cases hd

/-! ## Object serialization roundtrip (C5) -/

theorem sepHead_not_digit {r2 : List Char}
    (h : ∀ c, r2.head? = some c → (c = ',' ∨ c = rbrace)) :
    ∀ c, r2.head? = some c → c.isDigit = false := by
  intro c hc
  rcases h c hc with rfl | rfl
  · decide
  · decide

theorem dumpMembersG_length {α : Type} (dv : α → Option (List Char)) :
    ∀ (kvs : List (String × α)) (ms : List Char), dumpMembersG dv kvs = some ms →
      kvs.length ≤ ms.length := by
  intro kvs
  induction kvs with
  | nil => intro ms h; simp
  | cons kv tl ih =>
    obtain ⟨k, v⟩ := kv
    intro ms h
    cases tl with
    | nil =>
      simp only [dumpMembersG] at h
      rcases Option.map_eq_some'.mp h with ⟨dd, hdv, hms2⟩
      rw [← hms2, List.length_append, dumpKey]
      simp
      omega
    | cons kv2 tl2 =>
      simp only [dumpMembersG] at h
      rcases Option.bind_eq_some.mp h with ⟨dd, hdv, h2⟩
      rcases Option.map_eq_some'.mp h2 with ⟨m2, hms', hms2⟩
      have hlen := ih m2 hms'
      rw [← hms2, dumpKey]
      simp only [List.length_append, List.length_cons]
      simp at hlen ⊢
      omega

theorem decodeMembers_key_step (pv : List Char → Option (JVal × List Char))
    (fuel : Nat) (k : String) (dd SUF : List Char) :
    decodeMembers pv (fuel + 1) ((dumpKey k ++ dd) ++ SUF)
      = (pv (dd ++ SUF)).bind (fun vr =>
          decodeMemberTail (fun cs2 => decodeMembers pv fuel cs2) k.data vr.1 vr.2) := by
  have hshape : (dumpKey k ++ dd) ++ SUF
      = '"' :: (encStrL k.data ++ '"' :: (':' :: ' ' :: (dd ++ SUF))) := by
    rw [dumpKey]
    simp
  rw [hshape]
  have step : decodeMembers pv (fuel + 1)
      ('"' :: (encStrL k.data ++ '"' :: (':' :: ' ' :: (dd ++ SUF))))
      = (decodeStrBody ((encStrL k.data ++ '"' :: (':' :: ' ' :: (dd ++ SUF))).length + 1)
          (encStrL k.data ++ '"' :: (':' :: ' ' :: (dd ++ SUF)))).bind (fun kr =>
            decodeMemberSep pv (fun cs2 => decodeMembers pv fuel cs2) kr.1 kr.2) := rfl
  have hlen : k.data.length < (encStrL k.data ++ '"' :: (':' :: ' ' :: (dd ++ SUF))).length + 1 := by
    have := length_le_encStrL k.data
    rw [List.length_append]
    omega
  rw [step, decodeStrBody_enc k.data _ _ hlen]
  rfl

theorem decodeMembers_dump {α : Type} (dv : α → Option (List Char)) (jv : α → JVal)
    (pv : List Char → Option (JVal × List Char))
    (hpv : ∀ (v : α) (dd : List Char), dv v = some dd → ∀ r2 : List Char,
      (∀ c, r2.head? = some c → (c = ',' ∨ c = rbrace)) → pv (dd ++ r2) = some (jv v, r2)) :
    ∀ (kvs : List (String × α)) (ms : List Char), dumpMembersG dv kvs = some ms →
      ∀ (rest : List Char) (fuel : Nat), kvs.length < fuel →
        decodeMembers pv fuel (ms ++ rbrace :: rest)
          = some (kvs.map (fun kv => (kv.1, jv kv.2)), rest) := by
  intro kvs
  induction kvs with
  | nil =>
    intro ms hms rest fuel hf
    cases fuel with
    | zero => omega
    | succ fuel =>
      have hms2 : ([] : List Char) = ms := Option.some.inj hms
      rw [← hms2]
      rfl
  | cons kv tl ih =>
    obtain ⟨k, v⟩ := kv
    intro ms hms rest fuel hf
    cases fuel with
    | zero => simp at hf
    | succ fuel =>
    cases tl with
    | nil =>
      simp only [dumpMembersG] at hms
      rcases Option.map_eq_some'.mp hms with ⟨dd, hdv, hms2⟩
      rw [← hms2, decodeMembers_key_step]
      rw [hpv v dd hdv (rbrace :: rest) (fun c hc => Or.inr (Option.some.inj hc).symm)]
      rfl
    | cons kv2 tl2 =>
      simp only [dumpMembersG] at hms
      rcases Option.bind_eq_some.mp hms with ⟨dd, hdv, h2⟩
      rcases Option.map_eq_some'.mp h2 with ⟨m2, hms', hms2⟩
      have hassoc : (dumpKey k ++ dd ++ ',' :: ' ' :: m2) ++ rbrace :: rest
          = (dumpKey k ++ dd) ++ (',' :: ' ' :: (m2 ++ rbrace :: rest)) := by simp
      rw [← hms2, hassoc, decodeMembers_key_step]
      rw [hpv v dd hdv (',' :: ' ' :: (m2 ++ rbrace :: rest))
        (fun c hc => Or.inl (Option.some.inj hc).symm)]
      have step2 : (some (jv v, ',' :: ' ' :: (m2 ++ rbrace :: rest))).bind
          (fun vr => decodeMemberTail (fun cs2 => decodeMembers pv fuel cs2) k.data vr.1 vr.2)
          = (decodeMembers pv fuel (m2 ++ rbrace :: rest)).map
              (fun p => ((⟨k.data⟩, jv v) :: p.1, p.2)) := rfl
      rw [step2, ih m2 hms' rest fuel (by simp at hf ⊢; omega)]
      rfl

theorem dumpScalar_head_ne_lbrace (v : JScalar) (d : List Char) (hd : dumpScalar v = some d) :
    ∃ c cs, d = c :: cs ∧ c ≠ lbrace := by
  cases v with
  | s str => exact ⟨'"', _, (Option.some.inj hd).symm, by decide⟩
  | i n =>
    have hd2 : intRepr n = d := Option.some.inj hd
    rw [intRepr] at hd2
    by_cases hneg : n < 0
    · rw [if_pos hneg] at hd2
      exact ⟨'-', natDec n.natAbs, hd2.symm, by decide⟩
    · rw [if_neg hneg] at hd2
      obtain ⟨c, cs, hc⟩ := List.exists_cons_of_ne_nil (natDec_ne_nil n.natAbs)
      have hdig := natDec_digits n.natAbs c (by rw [hc]; simp)
      refine ⟨c, cs, by rw [← hd2, hc], ?_⟩
      apply charNe_of_toNat_ne
      have hl : lbrace.toNat = 123 := rfl
      omega
  | null => exact ⟨'n', _, (Option.some.inj hd).symm, by decide⟩
  | obj m => cases hd

theorem decodeTopValue_dump (v : PyVal) (d : List Char) (hd : dumpPyVal v = some d)
    (rest : List Char) (hr : ∀ c, rest.head? = some c → (c = ',' ∨ c = rbrace)) :
    decodeTopValue (d ++ rest) = some (jvalOfPyVal v, rest) := by
  cases v with
  | scalar sv =>
    obtain ⟨c, cs, hshape, hcne⟩ := dumpScalar_head_ne_lbrace sv d hd
    subst hshape
    have step : decodeTopValue ((c :: cs) ++ rest)
        = (if c = lbrace then
            (decodeMembers decodeScalar ((cs ++ rest).length + 1) (cs ++ rest)).map
              (fun p => (.obj p.1, p.2))
           else decodeScalar ((c :: cs) ++ rest)) := rfl
    rw [step, if_neg hcne]
    exact decodeScalar_dump sv (c :: cs) hd rest (sepHead_not_digit hr)
  | dict kvs =>
    cases hms : dumpMembersG dumpScalar kvs with
    | none => rw [dumpPyVal, hms] at hd; cases hd
    | some m =>
      rw [dumpPyVal, hms] at hd
      have hd2 : lbrace :: (m ++ [rbrace]) = d := Option.some.inj hd
      rw [← hd2]
      have hshape : (lbrace :: (m ++ [rbrace])) ++ rest = lbrace :: (m ++ rbrace :: rest) := by
        simp
      rw [hshape]
      have step : decodeTopValue (lbrace :: (m ++ rbrace :: rest))
          = (decodeMembers decodeScalar ((m ++ rbrace :: rest).length + 1)
              (m ++ rbrace :: rest)).map (fun p => (.obj p.1, p.2)) := rfl
      rw [step]
      have hlen : kvs.length < (m ++ rbrace :: rest).length + 1 := by
        have := dumpMembersG_length dumpScalar kvs m hms
        rw [List.length_append]
        omega
      rw [decodeMembers_dump dumpScalar jvalOfScalar decodeScalar
        (fun v2 dd hdv r2 hr2 => decodeScalar_dump v2 dd hdv r2 (sepHead_not_digit hr2))
        kvs m hms rest _ hlen]
      rfl

theorem jsonDecode_dumps (kvs : List (String × PyVal)) (cs : List Char)
    (h : json_dumps kvs = some cs) :
    jsonDecode cs = some (jvalOfPayload kvs, []) := by
  rw [json_dumps] at h
  rcases Option.map_eq_some'.mp h with ⟨m, hms, hcs⟩
  have hshape : lbrace :: (m ++ [rbrace]) = lbrace :: (m ++ rbrace :: []) := by simp
  rw [← hcs, hshape]
  have step : jsonDecode (lbrace :: (m ++ rbrace :: []))
      = (decodeMembers decodeTopValue ((m ++ rbrace :: []).length + 1)
          (m ++ rbrace :: [])).map (fun p => (.obj p.1, p.2)) := rfl
  rw [step]
  have hlen : kvs.length < (m ++ rbrace :: []).length + 1 := by
    have := dumpMembersG_length dumpPyVal kvs m hms
    rw [List.length_append]
    omega
  rw [decodeMembers_dump dumpPyVal jvalOfPyVal decodeTopValue
    (fun v2 dd hdv r2 hr2 => decodeTopValue_dump v2 dd hdv r2 hr2)
    kvs m hms [] _ hlen]
  rfl

/-! ## Output characters are printable ASCII (C5) -/

theorem hexDig_printable {d : Nat} (h : d < 16) :
    32 ≤ (hexDig d).toNat ∧ (hexDig d).toNat ≤ 126 := by
  interval_cases d
  all_goals decide

theorem uEsc_printable (n : Nat) : ∀ x ∈ uEsc n, 32 ≤ x.toNat ∧ x.toNat ≤ 126 := by
  intro x hx
  rw [uEsc] at hx
  simp only [List.mem_cons, List.not_mem_nil, or_false] at hx
  rcases hx with rfl | rfl | rfl | rfl | rfl | rfl
  · decide
  · decide
  · exact hexDig_printable (Nat.mod_lt _ (by norm_num))
  · exact hexDig_printable (Nat.mod_lt _ (by norm_num))
  · exact hexDig_printable (Nat.mod_lt _ (by norm_num))
  · exact hexDig_printable (Nat.mod_lt _ (by norm_num))

theorem encChar_printable (c : Char) : ∀ x ∈ encChar c, 32 ≤ x.toNat ∧ x.toNat ≤ 126 := by
  intro x hx
  rw [encChar] at hx
  split_ifs at hx with h1 h2 h3 h4 h5 h6 h7 h8 h9
  · simp only [List.mem_cons, List.not_mem_nil, or_false] at hx
    rcases hx with rfl | rfl
    · decide
    · decide
  · simp only [List.mem_cons, List.not_mem_nil, or_false] at hx
    rcases hx with rfl | rfl
    · decide
    · decide
  · simp only [List.mem_cons, List.not_mem_nil, or_false] at hx
    rcases hx with rfl | rfl
    · decide
    · decide
  · simp only [List.mem_cons, List.not_mem_nil, or_false] at hx
    rcases hx with rfl | rfl
    · decide
    · decide
  · simp only [List.mem_cons, List.not_mem_nil, or_false] at hx
    rcases hx with rfl | rfl
    · decide
    · decide
  · simp only [List.mem_cons, List.not_mem_nil, or_false] at hx
    rcases hx with rfl | rfl
    · decide
    · decide
  · simp only [List.mem_cons, List.not_mem_nil, or_false] at hx
    rcases hx with rfl | rfl
    · decide
    · decide
  · rcases List.mem_singleton.mp hx with rfl
    exact h8
  · exact uEsc_printable c.toNat x hx
  · rcases List.mem_append.mp hx with hx | hx
    · exact uEsc_printable _ x hx
    · exact uEsc_printable _ x hx

theorem encStrL_printable (l : List Char) : ∀ x ∈ encStrL l, 32 ≤ x.toNat ∧ x.toNat ≤ 126 := by
  induction l with
  | nil => intro x hx; cases hx
  | cons c t ih =>
    intro x hx
    rw [encStrL] at hx
    rcases List.mem_append.mp hx with hx | hx
    · exact encChar_printable c x hx
    · exact ih x hx

theorem natDec_printable (n : Nat) : ∀ x ∈ natDec n, 32 ≤ x.toNat ∧ x.toNat ≤ 126 := by
  intro x hx
  rcases natDec_digits n x hx with ⟨h1, h2⟩
  omega

theorem intRepr_printable (n : Int) : ∀ x ∈ intRepr n, 32 ≤ x.toNat ∧ x.toNat ≤ 126 := by
  intro x hx
  rw [intRepr] at hx
  by_cases hneg : n < 0
  · rw [if_pos hneg] at hx
    rcases List.mem_cons.mp hx with rfl | hx
    · decide
    · exact natDec_printable _ x hx
  · rw [if_neg hneg] at hx
    exact natDec_printable _ x hx

theorem dumpScalar_printable (v : JScalar) (d : List Char) (hd : dumpScalar v = some d) :
    ∀ x ∈ d, 32 ≤ x.toNat ∧ x.toNat ≤ 126 := by
  intro x hx
  cases v with
  | s str =>
    rw [← Option.some.inj hd] at hx
    rcases List.mem_cons.mp hx with rfl | hx
    · decide
    · rcases List.mem_append.mp hx with hx | hx
      · exact encStrL_printable _ x hx
      · rcases List.mem_singleton.mp hx with rfl
        decide
  | i n =>
    rw [← Option.some.inj hd] at hx
    exact intRepr_printable n x hx
  | null =>
    rw [← Option.some.inj hd] at hx
    simp only [List.mem_cons, List.not_mem_nil, or_false] at hx
    rcases hx with rfl | rfl | rfl | rfl
    · decide
    · decide
    · decide
    · decide
  | obj m => cases hd

theorem dumpKey_printable (k : String) : ∀ x ∈ dumpKey k, 32 ≤ x.toNat ∧ x.toNat ≤ 126 := by
  intro x hx
  rw [dumpKey] at hx
  rcases List.mem_cons.mp hx with rfl | hx
  · decide
  · rcases List.mem_append.mp hx with hx | hx
    · exact encStrL_printable _ x hx
    · simp only [List.mem_cons, List.not_mem_nil, or_false] at hx
      rcases hx with rfl | rfl | rfl
      · decide
      · decide
      · decide

theorem dumpMembersG_printable {α : Type} (dv : α → Option (List Char))
    (hdv : ∀ (v : α) (d : List Char), dv v = some d → ∀ x ∈ d, 32 ≤ x.toNat ∧ x.toNat ≤ 126) :
    ∀ (kvs : List (String × α)) (ms : List Char), dumpMembersG dv kvs = some ms →
      ∀ x ∈ ms, 32 ≤ x.toNat ∧ x.toNat ≤ 126 := by
  intro kvs
  induction kvs with
  | nil =>
    intro ms h x hx
    rw [← Option.some.inj h] at hx
    cases hx
  | cons kv tl ih =>
    obtain ⟨k, v⟩ := kv
    intro ms h x hx
    cases tl with
    | nil =>
      simp only [dumpMembersG] at h
      rcases Option.map_eq_some'.mp h with ⟨dd, hdd, hms2⟩
      rw [← hms2] at hx
      rcases List.mem_append.mp hx with hx | hx
      · exact dumpKey_printable k x hx
      · exact hdv v dd hdd x hx
    | cons kv2 tl2 =>
      simp only [dumpMembersG] at h
      rcases Option.bind_eq_some.mp h with ⟨dd, hdd, h2⟩
      rcases Option.map_eq_some'.mp h2 with ⟨m2, hms', hms2⟩
      rw [← hms2] at hx
      rcases List.mem_append.mp hx with hx | hx
      · rcases List.mem_append.mp hx with hx | hx
        · exact dumpKey_printable k x hx
        · exact hdv v dd hdd x hx
      · rcases List.mem_cons.mp hx with rfl | hx
        · decide
        · rcases List.mem_cons.mp hx with rfl | hx
          · decide
          · exact ih m2 hms' x hx

theorem dumpPyVal_printable (v : PyVal) (d : List Char) (hd : dumpPyVal v = some d) :
    ∀ x ∈ d, 32 ≤ x.toNat ∧ x.toNat ≤ 126 := by
  intro x hx
  cases v with
  | scalar sv => exact dumpScalar_printable sv d hd x hx
  | dict kvs =>
    rw [dumpPyVal] at hd
    rcases Option.map_eq_some'.mp hd with ⟨m, hms, hd2⟩
    rw [← hd2] at hx
    rcases List.mem_cons.mp hx with rfl | hx
    · decide
    · rcases List.mem_append.mp hx with hx | hx
      · exact dumpMembersG_printable dumpScalar dumpScalar_printable kvs m hms x hx
      · rcases List.mem_singleton.mp hx with rfl
        decide

theorem json_dumps_printable (kvs : List (String × PyVal)) (cs : List Char)
    (h : json_dumps kvs = some cs) : ∀ x ∈ cs, 32 ≤ x.toNat ∧ x.toNat ≤ 126 := by
  intro x hx
  rw [json_dumps] at h
  rcases Option.map_eq_some'.mp h with ⟨m, hms, hcs⟩
  rw [← hcs] at hx
  rcases List.mem_cons.mp hx with rfl | hx
  · decide
  · rcases List.mem_append.mp hx with hx | hx
    · exact dumpMembersG_printable dumpPyVal dumpPyVal_printable kvs m hms x hx
    · rcases List.mem_singleton.mp hx with rfl
      decide

/-- C5: whenever `format` returns a line, that line is valid, self-contained
JSON — decoding it yields exactly the payload mapping with no input left
over — and every character of the line is printable ASCII (0x20-0x7E), so
no line-terminator character (LF, CR, U+2028, U+2029, ...) is embedded. -/
theorem c5_valid_json_line (r : LogRecord) (header : String) (line : String)
    (h : CloudLoggingHandler.format r header = .ok line) :
    jsonDecode line.data = some (jvalOfPayload (buildPayload r header), []) ∧
    ∀ c ∈ line.data, (32 ≤ c.toNat ∧ c.toNat ≤ 126) ∧ c ≠ '\n' ∧ c ≠ '\r' := by
  rw [CloudLoggingHandler.format] at h
  cases hj : json_dumps (buildPayload r header) with
  | none => rw [hj] at h; cases h
  | some cs =>
    rw [hj] at h
    have h2 : (Except.ok (String.mk cs) : Except Unit String) = .ok line := h
    have h3 : String.mk cs = line := by injection h2
    constructor
    · rw [← h3]
      exact jsonDecode_dumps _ _ hj
    · intro c hc
      rw [← h3] at hc
      have hp := json_dumps_printable _ _ hj c hc
      refine ⟨hp, ?_, ?_⟩
      · apply charNe_of_toNat_ne
        have hn : ('\n').toNat = 10 := rfl
        omega
      · apply charNe_of_toNat_ne
        have hr : ('\r').toNat = 13 := rfl
        omega

/-- C5 (witness): a concrete record. -/
def c5rec : LogRecord :=
  { msg := "hi", created := (0 : ℚ), thread := some 1, levelname := "INFO", trace_id := none }

/-- C5 (witness): the line `format` emits for `c5rec`. -/
def c5line : String :=
  "\x7b\"message\": \"hi\", \"timestamp\": \x7b\"seconds\": 0, \"nanos\": 0\x7d, \"thread\": 1, \"severity\": \"INFO\"\x7d"

/-- C5 (witness): the theorem instantiated at `c5rec`, with the hypothesis
discharged by evaluation. -/
theorem c5_valid_json_line_witness :
    CloudLoggingHandler.format c5rec "" = .ok c5line ∧
    (jsonDecode c5line.data = some (jvalOfPayload (buildPayload c5rec ""), []) ∧
     ∀ c ∈ c5line.data, (32 ≤ c.toNat ∧ c.toNat ≤ 126) ∧ c ≠ '\n' ∧ c ≠ '\r') := by
  have hs : payloadSeconds (0 : ℚ) = 0 := by simp [payloadSeconds, modf, pyInt]
  have hn : payloadNanos (0 : ℚ) = 0 := by simp [payloadNanos, modf, pyInt]
  have hb : buildPayload c5rec ""
      = [("message", .scalar (.s "hi")),
         ("timestamp", .dict [("seconds", .i 0), ("nanos", .i 0)]),
         ("thread", .scalar (.i 1)),
         ("severity", .scalar (.s "INFO"))] := by
    simp only [buildPayload, c5rec, hs, hn]
    rfl
  have hfmt : CloudLoggingHandler.format c5rec "" = .ok c5line := by
    rw [CloudLoggingHandler.format, hb]
    rfl
  exact ⟨hfmt, c5_valid_json_line c5rec "" c5line hfmt⟩
